import Mathlib

/-!
# Verification of the trace comparison engine

A shallow embedding of `compare_trace.py`: format detection, line
parsing (addresses and register tokens), BLL/BLH instruction alignment
and the lock-step comparison loop, together with theorems settling the
specified properties.

Strings are processed as their underlying character lists; the regular
expressions of the source are embedded as explicit scanners with the
same matching semantics (leftmost match, greedy runs, non-overlapping
continuation after a match).
-/

namespace CompareTrace

/-- Character class of the regex `[0-9a-fA-F]`. -/
def isHexChar (c : Char) : Bool :=
  (48 ≤ c.toNat && c.toNat ≤ 57) || (97 ≤ c.toNat && c.toNat ≤ 102) ||
    (65 ≤ c.toNat && c.toNat ≤ 70)

/-- A lowercase hexadecimal digit (`[0-9a-f]`), the canonical rendering
of address characters. -/
def isLowerHexChar (c : Char) : Bool :=
  (48 ≤ c.toNat && c.toNat ≤ 57) || (97 ≤ c.toNat && c.toNat ≤ 102)

/-- Value of one hexadecimal digit, as used by Python `int(_, 16)`. -/
def hexDigitVal (c : Char) : Nat :=
  if 48 ≤ c.toNat && c.toNat ≤ 57 then c.toNat - 48
  else if 97 ≤ c.toNat && c.toNat ≤ 102 then c.toNat - 97 + 10
  else c.toNat - 65 + 10

/-- Python `int(s, 16)` on a string of hexadecimal digits. -/
def hexVal (cs : List Char) : Nat :=
  cs.foldl (fun a c => 16 * a + hexDigitVal c) 0

/-- Python `int(s)` on a string of decimal digits. -/
def decVal (cs : List Char) : Nat :=
  cs.foldl (fun a c => 10 * a + (c.toNat - '0'.toNat)) 0

/-- `p` occurs at the very start of `s` (used for `str.startswith`). -/
def leadsWith : List Char → List Char → Bool
  | [], _ => true
  | _ :: _, [] => false
  | p :: ps, c :: cs => p = c && leadsWith ps cs

/-- Python substring membership `pat in s`. -/
def containsSub (pat : List Char) : List Char → Bool
  | [] => leadsWith pat []
  | c :: t => leadsWith pat (c :: t) || containsSub pat t

/-- The two trace dialects recognized by `detect_format`. -/
inductive Format where
  | format1 : Format
  | format2 : Format
deriving DecidableEq, Repr

/-- `detect_format`: a line starting with `[debug` is the ayyboy debug
format (format2); anything else is the Mesen2 format (format1). -/
def detect_format (line : String) : Format :=
  if leadsWith "[debug".data line.data then .format2 else .format1

/-- Register mapping: a Python dict from key string to value, as an
insertion-ordered association list. -/
abbrev Regs := List (String × Nat)

/-- Python dict assignment `m[k] = v`: update in place or append. -/
def dinsert (m : Regs) (k : String) (v : Nat) : Regs :=
  match m with
  | [] => [(k, v)]
  | (k', v') :: t => if k' = k then (k', v) :: t else (k', v') :: dinsert t k v

/-- Python dict lookup (`k in m` and `m[k]` combined). -/
def lookupRegs : Regs → String → Option Nat
  | [], _ => none
  | (k', v) :: t, k => if k' = k then some v else lookupRegs t k

/-- `re.findall(r'[Rr](\d+)<sep>([0-9a-fA-F]+)', line)` with `<sep>` the
dialect's separator (`:` for format1, `=` for format2): scan left to
right; at an `R`/`r`, a maximal nonempty digit run, the separator and a
maximal nonempty hex run form a match, and scanning resumes after the
match; otherwise the scan moves one character forward. -/
def findRegTokensF (sep : Char) : Nat → List Char → List (List Char × List Char)
  | 0, _ => []
  | _ + 1, [] => []
  | fuel + 1, c :: rest =>
    if c = 'R' || c = 'r' then
      let ds := rest.takeWhile Char.isDigit
      if ds.isEmpty then findRegTokensF sep fuel rest
      else
        match rest.dropWhile Char.isDigit with
        | [] => findRegTokensF sep fuel rest
        | s :: rest3 =>
          if s = sep then
            let hs := rest3.takeWhile isHexChar
            if hs.isEmpty then findRegTokensF sep fuel rest
            else (ds, hs) :: findRegTokensF sep fuel (rest3.dropWhile isHexChar)
          else findRegTokensF sep fuel rest
    else findRegTokensF sep fuel rest

/-- The scan of a whole line: the fuel `cs.length` dominates the number
of scan positions, so the fueled scanner never runs out. -/
def findRegTokens (sep : Char) (cs : List Char) : List (List Char × List Char) :=
  findRegTokensF sep cs.length cs

/-- The success condition of `re.search(r'([0-9a-fA-F]{8}):[^[]*\[', _)`
at the current position: eight hex digits, a colon, and an opening
bracket somewhere later. -/
def addrHere (cs : List Char) : Bool :=
  (cs.take 8).length = 8 && (cs.take 8).all isHexChar &&
    match cs.drop 8 with
    | ':' :: rest => containsSub "[".data rest
    | _ => false

/-- `re.search(r'([0-9a-fA-F]{8}):[^[]*\[', line)`: the captured group of
the leftmost position where the pattern matches. -/
def findAddr2 : List Char → Option (List Char)
  | [] => none
  | c :: rest => if addrHere (c :: rest) then some ((c :: rest).take 8) else findAddr2 rest

/-- `re.search(r'<xy>=([0-9a-fA-F]+)', line, re.IGNORECASE)` for a fixed
two-letter tag (`sp` or `lr`): the captured hex run of the leftmost
match, with each tag letter accepted in either case. -/
def searchTag (x1 x2 y1 y2 : Char) : List Char → Option (List Char)
  | [] => none
  | c :: rest =>
    if c = x1 || c = x2 then
      match rest with
      | d :: '=' :: rest2 =>
        if d = y1 || d = y2 then
          let hs := rest2.takeWhile isHexChar
          if hs.isEmpty then searchTag x1 x2 y1 y2 rest else some hs
        else searchTag x1 x2 y1 y2 rest
      | _ => searchTag x1 x2 y1 y2 rest
    else searchTag x1 x2 y1 y2 rest

/-- The dict key `f'r{reg_num.lower()}'` built from the scanned digit
string of a register token (digits are unchanged by lowercasing). -/
def mkRegKey (ds : List Char) : String :=
  String.mk ('r' :: ds.map Char.toLower)

/-- The body of the register accumulation loop: `if int(reg_num) <= 14:
registers[f'r{reg_num.lower()}'] = int(reg_val, 16)`. -/
def regStep (m : Regs) (t : List Char × List Char) : Regs :=
  if decVal t.1 ≤ 14 then dinsert m (mkRegKey t.1) (hexVal t.2) else m

/-- Accumulate the scanned register tokens into the dict, mirroring the
loop `for reg_num, reg_val in reg_matches`. -/
def regsFrom (toks : List (List Char × List Char)) : Regs :=
  toks.foldl regStep []

/-- The failure raised when no address is found in a line. -/
inductive ParseError where
  | addressNotFound : String → ParseError
deriving DecidableEq, Repr

/-- `parse_line`: extract the canonical address and the register dict
from one trace line, raising when no address is found. The address
starts as the sentinel `"unknown"` and is overwritten on a match, as in
the source. -/
def parse_line (line : String) : Except ParseError (String × Regs) :=
  let cs := line.data
  match detect_format line with
  | .format1 =>
    let address :=
      if (cs.take 8).length = 8 && (cs.take 8).all isHexChar then
        String.mk ('0' :: 'x' :: (cs.take 8).map Char.toLower)
      else "unknown"
    let registers := regsFrom (findRegTokens ':' cs)
    if address = "unknown" then .error (.addressNotFound line)
    else .ok (address, registers)
  | .format2 =>
    let address :=
      match findAddr2 cs with
      | some a => String.mk ('0' :: 'x' :: a.map Char.toLower)
      | none => "unknown"
    let registers := regsFrom (findRegTokens '=' cs)
    let registers' :=
      match searchTag 's' 'S' 'p' 'P' cs with
      | some hs => dinsert registers "r13" (hexVal hs)
      | none => registers
    let registers'' :=
      match searchTag 'l' 'L' 'r' 'R' cs with
      | some hs => dinsert registers' "r14" (hexVal hs)
      | none => registers'
    if address = "unknown" then .error (.addressNotFound line)
    else .ok (address, registers'')

/-- Python `str.lower()` on a canonical address string. -/
def lowerStr (s : String) : String :=
  String.mk (s.data.map Char.toLower)

/-- The dict key `f'r{i}'` used by the comparison loop. -/
def rkey (i : Nat) : String := "r" ++ toString i

/-- One reported mismatch: either an address mismatch or a register
mismatch, tagged with the 1-based step number. -/
inductive Mismatch where
  | addr : Nat → String → String → Mismatch
  | reg : Nat → Nat → Nat → Nat → Mismatch
deriving DecidableEq, Repr

/-- The register comparison `for i in range(13)` of one step: a mismatch
is recorded for each index 0..12 present in both dicts with differing
values. -/
def regMismatches (n : Nat) (regs1 regs2 : Regs) : List Mismatch :=
  (List.range 13).filterMap fun i =>
    match lookupRegs regs1 (rkey i), lookupRegs regs2 (rkey i) with
    | some v1, some v2 => if v1 ≠ v2 then some (.reg n i v1 v2) else none
    | _, _ => none

/-- All mismatches reported at one step: the address check, then the
register checks in index order. -/
def stepMismatches (n : Nat) (a1 : String) (r1 : Regs) (a2 : String) (r2 : Regs) :
    List Mismatch :=
  (if lowerStr a1 ≠ lowerStr a2 then [.addr n a1 a2] else []) ++ regMismatches n r1 r2

/-- The BLL/BLH pairing condition of the comparison loop: the current
format1 line contains `BLL` and the in-bounds next line contains `BLH`. -/
def shouldPair (lines : List String) (i : Nat) : Bool :=
  match lines.get? i with
  | none => false
  | some line1 =>
    detect_format line1 = .format1 && containsSub "BLL".data line1.data &&
      match lines.get? (i + 1) with
      | none => false
      | some lineNext => containsSub "BLH".data lineNext.data

/-- The comparison loop of `compare_traces`, instrumented to return the
mismatches printed at the failing step and the final cursor positions
along with the boolean verdict. The dialect-A cursor `i1` strictly
increases each iteration, so fuel `l1.length - i1` dominates the number
of iterations; when the fuel is exhausted the loop condition is already
false and the loop-exit value is returned. -/
def compareAuxF (l1 l2 : List String) : Nat → Nat → Nat → Nat →
    Except ParseError (Bool × List Mismatch × Nat × Nat)
  | 0, i1, i2, _ => .ok (true, [], i1, i2)
  | fuel + 1, i1, i2, n =>
    if h : i1 < l1.length ∧ i2 < l2.length then
      match parse_line (l1.get ⟨i1, h.1⟩) with
      | .error e => .error e
      | .ok (a1, r1) =>
        match parse_line (l2.get ⟨i2, h.2⟩) with
        | .error e => .error e
        | .ok (a2, r2) =>
          let ms := stepMismatches (n + 1) a1 r1 a2 r2
          if ms = [] then
            compareAuxF l1 l2 fuel (i1 + (if shouldPair l1 i1 then 2 else 1)) (i2 + 1) (n + 1)
          else .ok (false, ms, i1, i2)
    else .ok (true, [], i1, i2)

/-- The comparison loop from cursor position `(i1, i2)` and step counter
`n`. -/
def compareFrom (l1 l2 : List String) (i1 i2 n : Nat) :
    Except ParseError (Bool × List Mismatch × Nat × Nat) :=
  compareAuxF l1 l2 (l1.length - i1) i1 i2 n

/-- `compare_traces` with the instrumented observables exposed. -/
def compare_tracesFull (l1 l2 : List String) :
    Except ParseError (Bool × List Mismatch × Nat × Nat) :=
  compareFrom l1 l2 0 0 0

/-- `compare_traces`: the boolean verdict (`.ok true` = equivalent),
with a raised parse failure surfaced as `.error`. -/
def compare_traces (l1 l2 : List String) : Except ParseError Bool :=
  (compare_tracesFull l1 l2).map (fun r => r.1)

/-- A canonically rendered address: `0x` followed by exactly eight
lowercase hexadecimal digits. -/
def validAddr (a : String) : Prop :=
  a.data.length = 10 ∧ a.data.take 2 = ['0', 'x'] ∧
    (a.data.drop 2).all isLowerHexChar = true

/-- The decoded value of the left-to-right last scanned register token
with index at most 14 whose dict key is `k`. -/
def lastTokenValue (toks : List (List Char × List Char)) (k : String) : Option Nat :=
  (toks.reverse.find? fun t => decide (decVal t.1 ≤ 14) && (mkRegKey t.1 == k)).map
    fun t => hexVal t.2

/-- Every hexadecimal value token of a line that can reach the register
dict: the scanned register tokens of the line's dialect and, for
dialect B, the `sp=`/`lr=` capture groups. -/
def valueTokens (line : String) : List (List Char) :=
  match detect_format line with
  | .format1 => (findRegTokens ':' line.data).map fun t => t.2
  | .format2 =>
    ((findRegTokens '=' line.data).map fun t => t.2) ++
      (match searchTag 's' 'S' 'p' 'P' line.data with
        | some hs => [hs]
        | none => []) ++
      (match searchTag 'l' 'L' 'r' 'R' line.data with
        | some hs => [hs]
        | none => [])

/-- The step agreement actually checked by the comparator: for every
register index 0 through 12, the values agree whenever the key is
present in both mappings. Indices 13 and 14 are not consulted. -/
def regsAgree (r1 r2 : Regs) : Bool :=
  (List.range 13).all fun i =>
    match lookupRegs r1 (rkey i), lookupRegs r2 (rkey i) with
    | some v1, some v2 => v1 == v2
    | _, _ => true

/-- Lock-step agreement of the two sequences from cursor `(i1, i2)`,
along the alignment the comparator itself uses: every aligned pair of
lines parses, the canonical addresses agree, and registers 0 through 12
agree wherever present in both mappings. -/
def agreesF (l1 l2 : List String) : Nat → Nat → Nat → Bool
  | 0, _, _ => true
  | fuel + 1, i1, i2 =>
    if h : i1 < l1.length ∧ i2 < l2.length then
      match parse_line (l1.get ⟨i1, h.1⟩), parse_line (l2.get ⟨i2, h.2⟩) with
      | .ok (a1, r1), .ok (a2, r2) =>
        (lowerStr a1 == lowerStr a2) && regsAgree r1 r2 &&
          agreesF l1 l2 fuel (i1 + (if shouldPair l1 i1 then 2 else 1)) (i2 + 1)
      | _, _ => false
    else true

/-- The two sequences agree at every aligned step. -/
def stepsAgree (l1 l2 : List String) : Bool :=
  agreesF l1 l2 l1.length 0 0

/-! ## Helper lemmas -/

theorem lookupRegs_dinsert_self (m : Regs) (k : String) (v : Nat) :
    lookupRegs (dinsert m k v) k = some v := by
  induction m with
  | nil => simp [dinsert, lookupRegs]
  | cons p t ih =>
    obtain ⟨k', v'⟩ := p
    by_cases h : k' = k
    · simp [dinsert, h, lookupRegs]
    · simp [dinsert, h, lookupRegs, ih]

theorem lookupRegs_dinsert_ne (m : Regs) (k k2 : String) (v : Nat) (h : k ≠ k2) :
    lookupRegs (dinsert m k v) k2 = lookupRegs m k2 := by
  induction m with
  | nil => simp [dinsert, lookupRegs, h]
  | cons p t ih =>
    obtain ⟨k', v'⟩ := p
    by_cases hk : k' = k
    · subst hk
      simp [dinsert, lookupRegs, h]
    · simp [dinsert, hk, lookupRegs, ih]

theorem lookupRegs_fold (toks : List (List Char × List Char)) (m : Regs) (k : String) :
    lookupRegs (List.foldl regStep m toks) k =
      match lastTokenValue toks k with
      | some v => some v
      | none => lookupRegs m k := by
  induction toks generalizing m with
  | nil => simp [lastTokenValue]
  | cons t rest ih =>
    rw [List.foldl_cons, ih]
    unfold lastTokenValue
    rw [List.reverse_cons, List.find?_append]
    cases hf : rest.reverse.find? fun t => decide (decVal t.1 ≤ 14) && (mkRegKey t.1 == k) with
    | some t0 => simp [lastTokenValue, hf, Option.or]
    | none =>
      simp only [lastTokenValue, hf, Option.or, Option.map]
      by_cases h14 : decVal t.1 ≤ 14
      · by_cases hk : mkRegKey t.1 = k
        · subst hk
          simp [List.find?, h14, regStep, lookupRegs_dinsert_self]
        · have hbeq : (mkRegKey t.1 == k) = false := beq_eq_false_iff_ne.mpr hk
          simp [List.find?, h14, hbeq, regStep, lookupRegs_dinsert_ne _ _ _ _ hk]
      · simp [List.find?, h14, regStep]

theorem lookupRegs_regsFrom (toks : List (List Char × List Char)) (k : String) :
    lookupRegs (regsFrom toks) k = lastTokenValue toks k := by
  unfold regsFrom
  rw [lookupRegs_fold]
  cases h : lastTokenValue toks k <;> simp [lookupRegs]

theorem mem_dinsert (m : Regs) (k : String) (v : Nat) (p : String × Nat)
    (h : p ∈ dinsert m k v) : p.2 = v ∨ p ∈ m := by
  induction m with
  | nil =>
    simp [dinsert] at h
    simp [h]
  | cons q t ih =>
    obtain ⟨k', v'⟩ := q
    by_cases hk : k' = k
    · simp only [dinsert, if_pos hk, List.mem_cons] at h
      rcases h with h | h
      · left; rw [h]
      · right; exact List.mem_cons_of_mem _ h
    · simp only [dinsert, if_neg hk, List.mem_cons] at h
      rcases h with h | h
      · right; rw [h]; exact List.mem_cons_self _ _
      · rcases ih h with h2 | h2
        · exact .inl h2
        · exact .inr (List.mem_cons_of_mem _ h2)

theorem mem_regsFold (toks : List (List Char × List Char)) (m : Regs) (p : String × Nat)
    (h : p ∈ List.foldl regStep m toks) :
    p ∈ m ∨ ∃ t ∈ toks, p.2 = hexVal t.2 := by
  induction toks generalizing m with
  | nil => exact .inl h
  | cons t rest ih =>
    rcases ih (regStep m t) h with h1 | h1
    · unfold regStep at h1
      split at h1
      · rcases mem_dinsert _ _ _ _ h1 with h2 | h2
        · exact .inr ⟨t, List.mem_cons_self _ _, h2⟩
        · exact .inl h2
      · exact .inl h1
    · obtain ⟨t0, ht0, hv⟩ := h1
      exact .inr ⟨t0, List.mem_cons_of_mem _ ht0, hv⟩

theorem searchTag_sound (x1 x2 y1 y2 : Char) (cs hs : List Char)
    (h : searchTag x1 x2 y1 y2 cs = some hs) :
    hs ≠ [] ∧ ∀ c ∈ hs, isHexChar c = true := by
  induction cs with
  | nil => simp [searchTag] at h
  | cons c rest ih =>
    simp only [searchTag] at h
    split at h
    · split at h
      · split at h
        · split at h
          · exact ih h
          · rename_i hne
            obtain rfl := Option.some.inj h
            refine ⟨by simpa using hne, ?_⟩
            intro x hx
            exact List.mem_takeWhile_imp hx
        · exact ih h
      · exact ih h
    · exact ih h

theorem findRegTokensF_hex (sep : Char) (fuel : Nat) :
    ∀ cs t, t ∈ findRegTokensF sep fuel cs → ∀ c ∈ t.2, isHexChar c = true := by
  induction fuel with
  | zero =>
    intro cs t h
    simp [findRegTokensF] at h
  | succ f ih =>
    intro cs t h
    cases cs with
    | nil => simp [findRegTokensF] at h
    | cons c rest =>
      simp only [findRegTokensF] at h
      split at h
      · split at h
        · exact ih rest t h
        · split at h
          · exact ih rest t h
          · split at h
            · split at h
              · exact ih rest t h
              · rcases List.mem_cons.mp h with h1 | h1
                · subst h1
                  intro x hx
                  exact List.mem_takeWhile_imp hx
                · exact ih _ t h1
            · exact ih rest t h
      · exact ih rest t h

theorem findRegTokens_hex (sep : Char) (cs : List Char) (t : List Char × List Char)
    (h : t ∈ findRegTokens sep cs) : ∀ c ∈ t.2, isHexChar c = true :=
  findRegTokensF_hex sep cs.length cs t h

theorem hexDigitVal_lt (c : Char) (h : isHexChar c = true) : hexDigitVal c < 16 := by
  unfold isHexChar at h
  simp only [Bool.or_eq_true, Bool.and_eq_true, decide_eq_true_eq] at h
  unfold hexDigitVal
  split
  · rename_i h1
    simp only [Bool.and_eq_true, decide_eq_true_eq] at h1
    omega
  · split
    · rename_i h1 h2
      simp only [Bool.and_eq_true, decide_eq_true_eq] at h2
      omega
    · rename_i h1 h2
      simp only [Bool.and_eq_true, decide_eq_true_eq, not_and, Bool.not_eq_true,
        decide_eq_false_iff_not, not_le] at h1 h2
      omega

theorem hexFold_lt (l : List Char) : ∀ a, (∀ c ∈ l, isHexChar c = true) →
    List.foldl (fun a c => 16 * a + hexDigitVal c) a l < (a + 1) * 16 ^ l.length := by
  induction l with
  | nil =>
    intro a _
    simp
  | cons c t ih =>
    intro a hall
    have hd : hexDigitVal c < 16 := hexDigitVal_lt c (hall c (by simp))
    have iht := ih (16 * a + hexDigitVal c) fun x hx => hall x (by simp [hx])
    calc List.foldl (fun a c => 16 * a + hexDigitVal c) (16 * a + hexDigitVal c) t
        < (16 * a + hexDigitVal c + 1) * 16 ^ t.length := iht
      _ ≤ ((a + 1) * 16) * 16 ^ t.length :=
          Nat.mul_le_mul_right _ (by omega)
      _ = (a + 1) * 16 ^ (c :: t).length := by
          rw [List.length_cons, pow_succ]
          ring

theorem hexVal_lt (l : List Char) (h : ∀ c ∈ l, isHexChar c = true) :
    hexVal l < 16 ^ l.length := by
  simpa [hexVal] using hexFold_lt l 0 h

theorem toLower_hex {c : Char} (h : isHexChar c = true) :
    isLowerHexChar c.toLower = true := by
  unfold isHexChar at h
  simp only [Bool.or_eq_true, Bool.and_eq_true, decide_eq_true_eq] at h
  unfold Char.toLower
  by_cases hc : c.toNat ≥ 65 ∧ c.toNat ≤ 90
  · rw [if_pos hc]
    have hk : 65 ≤ c.toNat ∧ c.toNat ≤ 70 := by omega
    generalize hgen : c.toNat = k at hk
    obtain ⟨hk1, hk2⟩ := hk
    interval_cases k <;> decide
  · rw [if_neg hc]
    unfold isLowerHexChar
    simp only [Bool.or_eq_true, Bool.and_eq_true, decide_eq_true_eq]
    omega

theorem findRegTokensF_nil (sep : Char) (fuel : Nat) :
    findRegTokensF sep fuel [] = [] := by
  cases fuel <;> rfl

theorem findRegTokensF_skip (sep c : Char) (fuel : Nat) (rest : List Char)
    (h1 : c ≠ 'R') (h2 : c ≠ 'r') :
    findRegTokensF sep (fuel + 1) (c :: rest) = findRegTokensF sep fuel rest := by
  simp [findRegTokensF, h1, h2]

theorem findRegTokens_cons_noR (sep c : Char) (rest : List Char)
    (h1 : c ≠ 'R') (h2 : c ≠ 'r') :
    findRegTokens sep (c :: rest) = findRegTokens sep rest := by
  unfold findRegTokens
  rw [List.length_cons, findRegTokensF_skip sep c rest.length rest h1 h2]

theorem findRegTokens_append_noR (sep : Char) (pre rest : List Char)
    (h : ∀ c ∈ pre, c ≠ 'R' ∧ c ≠ 'r') :
    findRegTokens sep (pre ++ rest) = findRegTokens sep rest := by
  induction pre with
  | nil => rfl
  | cons c t ih =>
    rw [List.cons_append,
      findRegTokens_cons_noR sep c (t ++ rest) (h c (by simp)).1 (h c (by simp)).2]
    exact ih fun x hx => h x (by simp [hx])

theorem findRegTokens_token (sep rc : Char) (ds hx : List Char)
    (hrc : rc = 'R' ∨ rc = 'r') (hds : ds ≠ []) (hd : ∀ c ∈ ds, c.isDigit = true)
    (hsep : sep.isDigit = false) (hhx : hx ≠ []) (hh : ∀ c ∈ hx, isHexChar c = true) :
    findRegTokens sep (rc :: (ds ++ sep :: hx)) = [(ds, hx)] := by
  have htw : (ds ++ sep :: hx).takeWhile Char.isDigit = ds := by
    rw [List.takeWhile_append_of_pos hd, List.takeWhile_cons_of_neg (by simp [hsep])]
    simp
  have hdw : (ds ++ sep :: hx).dropWhile Char.isDigit = sep :: hx := by
    rw [List.dropWhile_append_of_pos hd, List.dropWhile_cons_of_neg (by simp [hsep])]
  have htw2 : hx.takeWhile isHexChar = hx := List.takeWhile_eq_self_iff.mpr hh
  have hdw2 : hx.dropWhile isHexChar = [] := List.dropWhile_eq_nil_iff.mpr hh
  unfold findRegTokens
  rw [List.length_cons]
  simp only [findRegTokensF, htw, hdw]
  rw [if_pos (by rcases hrc with h | h <;> simp [h])]
  simp only [List.isEmpty_eq_true, hds, if_neg, htw2, hdw2, findRegTokensF_nil]
  simp [hds, hhx]

theorem findAddr2_sound (cs a : List Char) (h : findAddr2 cs = some a) :
    a.length = 8 ∧ a.all isHexChar = true := by
  induction cs with
  | nil => exact absurd h (by simp [findAddr2])
  | cons c rest ih =>
    by_cases hh : addrHere (c :: rest) = true
    · have : some ((c :: rest).take 8) = some a := by
        rw [← h]
        simp [findAddr2, hh]
      obtain rfl : (c :: rest).take 8 = a := Option.some.inj this
      unfold addrHere at hh
      simp only [Bool.and_eq_true, decide_eq_true_eq] at hh
      exact ⟨hh.1.1, hh.1.2⟩
    · apply ih
      rw [← h]
      simp [findAddr2, hh]

theorem mkAddr_ne_unknown (l : List Char) (h : l.length = 8) :
    String.mk ('0' :: 'x' :: l.map Char.toLower) ≠ "unknown" := by
  intro h9
  have hd := congrArg String.data h9
  have hl := congrArg List.length hd
  simp [h] at hl

theorem parse_format1_regs (line : String) (a : String) (regs : Regs)
    (hdf : detect_format line = .format1)
    (hok : parse_line line = .ok (a, regs)) :
    regs = regsFrom (findRegTokens ':' line.data) := by
  simp only [parse_line, hdf] at hok
  split at hok
  · rename_i hm
    simp only [Bool.and_eq_true, decide_eq_true_eq] at hm
    rw [if_neg (mkAddr_ne_unknown _ hm.1)] at hok
    simp only [Except.ok.injEq, Prod.mk.injEq] at hok
    exact hok.2.symm
  · rw [if_pos rfl] at hok
    exact absurd hok (by simp)

theorem parse_format2_regs (line : String) (a : String) (regs : Regs)
    (hdf : detect_format line = .format2)
    (hok : parse_line line = .ok (a, regs)) :
    regs =
      (match searchTag 'l' 'L' 'r' 'R' line.data with
        | some hs =>
          dinsert
            (match searchTag 's' 'S' 'p' 'P' line.data with
              | some hs2 =>
                dinsert (regsFrom (findRegTokens '=' line.data)) "r13" (hexVal hs2)
              | none => regsFrom (findRegTokens '=' line.data)) "r14" (hexVal hs)
        | none =>
          match searchTag 's' 'S' 'p' 'P' line.data with
          | some hs2 => dinsert (regsFrom (findRegTokens '=' line.data)) "r13" (hexVal hs2)
          | none => regsFrom (findRegTokens '=' line.data)) := by
  cases hfa : findAddr2 line.data with
  | none =>
    simp only [parse_line, hdf, hfa] at hok
    simp at hok
  | some a8 =>
    simp only [parse_line, hdf, hfa] at hok
    rw [if_neg (mkAddr_ne_unknown _ (findAddr2_sound _ _ hfa).1)] at hok
    simp only [Except.ok.injEq, Prod.mk.injEq] at hok
    exact hok.2.symm

theorem stepMismatches_nil_of_agree (n : Nat) (a1 a2 : String) (r1 r2 : Regs)
    (ha : lowerStr a1 = lowerStr a2) (hr : regsAgree r1 r2 = true) :
    stepMismatches n a1 r1 a2 r2 = [] := by
  unfold stepMismatches
  rw [if_neg (by simp [ha])]
  simp only [List.nil_append]
  unfold regMismatches
  rw [List.filterMap_eq_nil_iff]
  intro i hi
  have hv := List.all_eq_true.mp hr i hi
  cases h1 : lookupRegs r1 (rkey i) <;> cases h2 : lookupRegs r2 (rkey i) <;>
    simp [h1, h2] at hv ⊢
  exact hv

theorem regsAgree_refl (r : Regs) : regsAgree r r = true := by
  apply List.all_eq_true.mpr
  intro i _
  cases h : lookupRegs r (rkey i) <;> simp [h]

theorem shouldPair_succ_lt (l : List String) (i : Nat) (h : shouldPair l i = true) :
    i + 1 < l.length := by
  unfold shouldPair at h
  cases hg : l.get? i with
  | none => rw [hg] at h; exact absurd h (by simp)
  | some line1 =>
    rw [hg] at h
    cases hg2 : l.get? (i + 1) with
    | none => rw [hg2] at h; exact absurd h (by simp)
    | some lineNext =>
      have := List.get?_eq_some.mp hg2
      exact this.1

theorem compareAuxF_fuel (l1 l2 : List String) (fuel : Nat) :
    ∀ fuel' i1 i2 n, l1.length - i1 ≤ fuel → l1.length - i1 ≤ fuel' →
      compareAuxF l1 l2 fuel i1 i2 n = compareAuxF l1 l2 fuel' i1 i2 n := by
  induction fuel with
  | zero =>
    intro fuel' i1 i2 n h h'
    cases fuel' with
    | zero => rfl
    | succ f2 =>
      have hc : ¬(i1 < l1.length ∧ i2 < l2.length) := by omega
      simp [compareAuxF, hc]
  | succ f ih =>
    intro fuel' i1 i2 n h h'
    cases fuel' with
    | zero =>
      have hc : ¬(i1 < l1.length ∧ i2 < l2.length) := by omega
      simp [compareAuxF, hc]
    | succ f2 =>
      simp only [compareAuxF]
      by_cases hc : i1 < l1.length ∧ i2 < l2.length
      · rw [dif_pos hc, dif_pos hc]
        cases hp1 : parse_line (l1.get ⟨i1, hc.1⟩) with
        | error e => rfl
        | ok p1 =>
          obtain ⟨a1, r1⟩ := p1
          cases hp2 : parse_line (l2.get ⟨i2, hc.2⟩) with
          | error e => rfl
          | ok p2 =>
            obtain ⟨a2, r2⟩ := p2
            simp only
            by_cases hms : stepMismatches (n + 1) a1 r1 a2 r2 = []
            · rw [if_pos hms, if_pos hms]
              apply ih
              · split <;> omega
              · split <;> omega
            · rw [if_neg hms, if_neg hms]
      · rw [dif_neg hc, dif_neg hc]

theorem compareFrom_step (l1 l2 : List String) (i1 i2 n : Nat) (a1 a2 : String)
    (r1 r2 : Regs) (h : i1 < l1.length ∧ i2 < l2.length)
    (hp1 : parse_line (l1.get ⟨i1, h.1⟩) = .ok (a1, r1))
    (hp2 : parse_line (l2.get ⟨i2, h.2⟩) = .ok (a2, r2))
    (hms : stepMismatches (n + 1) a1 r1 a2 r2 = []) :
    compareFrom l1 l2 i1 i2 n =
      compareFrom l1 l2 (i1 + (if shouldPair l1 i1 then 2 else 1)) (i2 + 1) (n + 1) := by
  unfold compareFrom
  have hf : l1.length - i1 = (l1.length - i1 - 1) + 1 := by omega
  rw [hf]
  simp only [compareAuxF]
  rw [dif_pos h, hp1, hp2]
  simp only [hms, if_pos]
  apply compareAuxF_fuel
  · split <;> omega
  · split <;> omega

/-! ## Claim theorems -/

theorem data_mk (l : List Char) : (String.mk l).data = l := rfl

theorem searchTag_none (x1 x2 y1 y2 : Char) (cs : List Char)
    (h : ∀ c ∈ cs, c ≠ x1 ∧ c ≠ x2) : searchTag x1 x2 y1 y2 cs = none := by
  induction cs with
  | nil => rfl
  | cons c rest ih =>
    have h1 := h c (by simp)
    simp only [searchTag]
    rw [if_neg (by simp [h1.1, h1.2])]
    exact ih fun x hx => h x (by simp [hx])

theorem parseA_single (rc : Char) (hrc : rc = 'R' ∨ rc = 'r') (ds v : List Char)
    (hds : ds ≠ []) (hdig : ∀ c ∈ ds, c.isDigit = true) (hle : decVal ds ≤ 14)
    (hv : v ≠ []) (hvh : ∀ c ∈ v, isHexChar c = true) :
    parse_line (String.mk ("00000000 ".data ++ rc :: (ds ++ ':' :: v))) =
      .ok ("0x00000000", [(mkRegKey ds, hexVal v)]) := by
  have hstep : parse_line (String.mk ("00000000 ".data ++ rc :: (ds ++ ':' :: v))) =
      .ok ("0x00000000",
        regsFrom (findRegTokens ':' ("00000000 ".data ++ rc :: (ds ++ ':' :: v)))) := rfl
  rw [hstep, findRegTokens_append_noR ':' _ _ (by decide),
    findRegTokens_token ':' rc ds v hrc hds hdig (by decide) hv hvh]
  simp [regsFrom, regStep, hle, dinsert]

theorem parseB_single (rb : Char) (hrb : rb = 'R' ∨ rb = 'r') (ds v : List Char)
    (hds : ds ≠ []) (hdig : ∀ c ∈ ds, c.isDigit = true) (hle : decVal ds ≤ 14)
    (hv : v ≠ []) (hvh : ∀ c ∈ v, isHexChar c = true) :
    parse_line (String.mk ("[debug x] 00000000: b [".data ++ rb :: (ds ++ '=' :: v))) =
      .ok ("0x00000000", [(mkRegKey ds, hexVal v)]) := by
  have hmem : ∀ c ∈ ("[debug x] 00000000: b [".data ++ rb :: (ds ++ '=' :: v)),
      (c ≠ 's' ∧ c ≠ 'S') ∧ (c ≠ 'l' ∧ c ≠ 'L') := by
    have hpre : ∀ c ∈ "[debug x] 00000000: b [".data,
        (c ≠ 's' ∧ c ≠ 'S') ∧ (c ≠ 'l' ∧ c ≠ 'L') := by decide
    intro c hc
    rcases List.mem_append.mp hc with hc | hc
    · exact hpre c hc
    · rcases List.mem_cons.mp hc with hc | hc
      · subst hc
        rcases hrb with rfl | rfl <;> exact (by decide)
      · rcases List.mem_append.mp hc with hc | hc
        · have hd := hdig c hc
          refine ⟨⟨?_, ?_⟩, ?_, ?_⟩ <;> intro he <;> subst he <;> exact absurd hd (by decide)
        · rcases List.mem_cons.mp hc with hc | hc
          · subst hc
            exact (by decide)
          · have hx := hvh c hc
            refine ⟨⟨?_, ?_⟩, ?_, ?_⟩ <;> intro he <;> subst he <;> exact absurd hx (by decide)
  have hsp : searchTag 's' 'S' 'p' 'P'
      ("[debug x] 00000000: b [".data ++ rb :: (ds ++ '=' :: v)) = none :=
    searchTag_none _ _ _ _ _ fun c hc => (hmem c hc).1
  have hlr : searchTag 'l' 'L' 'r' 'R'
      ("[debug x] 00000000: b [".data ++ rb :: (ds ++ '=' :: v)) = none :=
    searchTag_none _ _ _ _ _ fun c hc => (hmem c hc).2
  have hdf2 : detect_format
      (String.mk ("[debug x] 00000000: b [".data ++ rb :: (ds ++ '=' :: v))) = .format2 := rfl
  have hdata : (String.mk ("[debug x] 00000000: b [".data ++ rb :: (ds ++ '=' :: v))).data =
      ("[debug x] 00000000: b [".data ++ rb :: (ds ++ '=' :: v)) := rfl
  have hfa : findAddr2 ("[debug x] 00000000: b [".data ++ rb :: (ds ++ '=' :: v)) =
      some "00000000".data := rfl
  simp only [parse_line, hdf2, hdata, hfa, hsp, hlr]
  rw [if_neg (by decide),
    findRegTokens_append_noR '=' _ _ (by decide),
    findRegTokens_token '=' rb ds v hrb hds hdig (by decide) hv hvh]
  simp [regsFrom, regStep, hle, dinsert]


/-- C4: on the concrete one-line sequences of the spec, the comparator
reports a mismatch at step 1 on register r1 with values 0x00000001
versus 0x00000002 and returns the non-equivalent verdict. -/
theorem c4_concrete_scenario :
    compare_tracesFull ["08000000 B $080000C0 R0:00000000 R1:00000001"]
      ["[debug x] 08000000: b +184 [r0=00000000 r1=00000002"] =
      .ok (false, [Mismatch.reg 1 1 0x00000001 0x00000002], 0, 0) := by
  rfl

/-- C1 counterexample: two identical line sequences containing a
`BLL`/`BLH` pair; the pairing advances the dialect-A cursor by two and
the dialect-B cursor by one, desynchronizing the identical sequences,
and `compare` returns the non-equivalent verdict. -/
theorem c1_counterexample :
    compare_traces ["00000000 BLL", "00000001 BLH", "00000002 X"]
      ["00000000 BLL", "00000001 BLH", "00000002 X"] = .ok false := by
  rfl

/-- C2 counterexample: the comparator returns the equivalent verdict
after consuming the single line of sequence A while sequence B still
has one unconsumed line (final cursor 1 of a length-2 sequence). -/
theorem c2_counterexample :
    compare_tracesFull ["00000000"] ["00000000", "00000000"] = .ok (true, [], 1, 1) ∧
      (1 : Nat) ≠ (["00000000", "00000000"] : List String).length := by
  exact ⟨rfl, by decide⟩

/-- C8 counterexample: in a dialect-A line the token `R07:bb` (numeric
index 7, written with a leading zero) is recorded under the key `r07`,
not under `r7`; the key is the scanned digit string, not the numeric
index, so the later occurrence for index 7 does not overwrite `r7`. -/
theorem c8_counterexample :
    parse_line "00000000 R7:aa R07:bb" =
      .ok ("0x00000000", [("r7", 0xaa), ("r07", 0xbb)]) ∧
      lookupRegs [("r7", 0xaa), ("r07", 0xbb)] "r7" = some 0xaa ∧ (0xaa : Nat) ≠ 0xbb := by
  exact ⟨rfl, rfl, by decide⟩

/-- C9 counterexample: a dialect-A register token with nine hexadecimal
digits parses to the value 2^32, so parsed register values are not
bounded by 2^32. -/
theorem c9_counterexample :
    parse_line "00000000 R1:100000000" = .ok ("0x00000000", [("r1", 4294967296)]) ∧
      ¬((4294967296 : Nat) < 2 ^ 32) := by
  exact ⟨rfl, by decide⟩

theorem mkAddr_valid (l : List Char) (h8 : l.length = 8) (hhex : l.all isHexChar = true) :
    validAddr (String.mk ('0' :: 'x' :: l.map Char.toLower)) := by
  refine ⟨?_, ?_, ?_⟩
  · show ('0' :: 'x' :: l.map Char.toLower).length = 10
    simp [h8]
  · show ('0' :: 'x' :: l.map Char.toLower).take 2 = ['0', 'x']
    rfl
  · show (('0' :: 'x' :: l.map Char.toLower).drop 2).all isLowerHexChar = true
    simp only [List.drop_succ_cons, List.drop_zero, List.all_map, List.all_eq_true,
      Function.comp_apply]
    intro c hc
    exact toLower_hex (List.all_eq_true.mp hhex c hc)

/-- C6: `parse_line` either returns a step whose address is canonical
(`0x` plus eight lowercase hex digits) or fails with the
address-not-found error for that line; a step with an undefined address
is never returned. -/
theorem c6_parse_address_total (line : String) :
    (∃ a regs, parse_line line = .ok (a, regs) ∧ validAddr a) ∨
      parse_line line = .error (.addressNotFound line) := by
  unfold parse_line
  cases hdf : detect_format line with
  | format1 =>
    simp only
    by_cases hm : ((line.data.take 8).length = 8 && (line.data.take 8).all isHexChar) = true
    · rw [if_pos hm]
      simp only [Bool.and_eq_true, decide_eq_true_eq] at hm
      rw [if_neg (mkAddr_ne_unknown _ hm.1)]
      exact .inl ⟨_, _, rfl, mkAddr_valid _ hm.1 hm.2⟩
    · rw [if_neg hm, if_pos rfl]
      exact .inr rfl
  | format2 =>
    simp only
    cases ha : findAddr2 line.data with
    | none =>
      rw [if_pos rfl]
      exact .inr rfl
    | some a8 =>
      have hs := findAddr2_sound line.data a8 ha
      rw [if_neg (mkAddr_ne_unknown _ hs.1)]
      exact .inl ⟨_, _, rfl, mkAddr_valid _ hs.1 hs.2⟩

/-- C1 (amended): for identical sequences in which every line parses
successfully and no position triggers the BLL/BLH pairing, `compare`
returns the equivalent verdict. (The pairing exclusion and the parse
requirement are forced: a BLL/BLH pair desynchronizes identical
sequences, and an unparseable line raises instead of returning a
verdict.) -/
theorem c1_amended (l : List String)
    (hp : ∀ line ∈ l, ∃ p, parse_line line = .ok p)
    (hnp : ∀ i, shouldPair l i = false) :
    compare_traces l l = .ok true := by
  suffices haux : ∀ fuel i n, ∃ j1 j2,
      compareAuxF l l fuel i i n = .ok (true, [], j1, j2) by
    obtain ⟨j1, j2, he⟩ := haux l.length 0 0
    unfold compare_traces compare_tracesFull compareFrom
    rw [Nat.sub_zero, he]
    rfl
  intro fuel
  induction fuel with
  | zero => exact fun i n => ⟨i, i, rfl⟩
  | succ f ih =>
    intro i n
    by_cases hc : i < l.length ∧ i < l.length
    · obtain ⟨⟨a, r⟩, hp1⟩ := hp (l.get ⟨i, hc.1⟩) (l.get_mem i hc.1)
      have hms : stepMismatches (n + 1) a r a r = [] :=
        stepMismatches_nil_of_agree _ _ _ _ _ rfl (regsAgree_refl r)
      obtain ⟨j1, j2, hrec⟩ := ih (i + 1) (n + 1)
      refine ⟨j1, j2, ?_⟩
      simp only [compareAuxF]
      rw [dif_pos hc]
      simp only [hp1, hms, hnp i, if_false, List.nil_eq, if_pos]
      simpa using hrec
    · exact ⟨i, i, by simp only [compareAuxF]; rw [dif_neg hc]⟩

/-- C1 amended, witness at a concrete input. -/
theorem c1_amended_witness : compare_traces ["00000000"] ["00000000"] = .ok true := by
  apply c1_amended
  · intro line hline
    rw [List.mem_singleton] at hline
    subst hline
    exact ⟨("0x00000000", []), rfl⟩
  · intro i
    match i with
    | 0 => rfl
    | j + 1 => rfl

/-- C2 (amended): when the comparator returns the equivalent verdict, at
least one of the two cursors has reached the end of its sequence and
neither cursor ever passes its end; the other sequence may retain
unconsumed lines (the known asymmetry). -/
theorem c2_amended (l1 l2 : List String) (b : Bool) (ms : List Mismatch) (j1 j2 : Nat)
    (hres : compare_tracesFull l1 l2 = .ok (b, ms, j1, j2)) (hb : b = true) :
    (j1 = l1.length ∨ j2 = l2.length) ∧ j1 ≤ l1.length ∧ j2 ≤ l2.length := by
  subst hb
  suffices haux : ∀ fuel i1 i2 n, l1.length - i1 ≤ fuel → i1 ≤ l1.length → i2 ≤ l2.length →
      compareAuxF l1 l2 fuel i1 i2 n = .ok (true, ms, j1, j2) →
      (j1 = l1.length ∨ j2 = l2.length) ∧ j1 ≤ l1.length ∧ j2 ≤ l2.length by
    apply haux l1.length 0 0 0 (by omega) (by omega) (by omega)
    unfold compare_tracesFull compareFrom at hres
    rwa [Nat.sub_zero] at hres
  intro fuel
  induction fuel with
  | zero =>
    intro i1 i2 n h hi1 hi2 he
    simp only [compareAuxF, Except.ok.injEq, Prod.mk.injEq, true_and] at he
    omega
  | succ f ih =>
    intro i1 i2 n h hi1 hi2 he
    simp only [compareAuxF] at he
    by_cases hc : i1 < l1.length ∧ i2 < l2.length
    · rw [dif_pos hc] at he
      cases hp1 : parse_line (l1.get ⟨i1, hc.1⟩) with
      | error e => rw [hp1] at he; exact absurd he (by simp)
      | ok p1 =>
        obtain ⟨a1, r1⟩ := p1
        rw [hp1] at he
        cases hp2 : parse_line (l2.get ⟨i2, hc.2⟩) with
        | error e => rw [hp2] at he; exact absurd he (by simp)
        | ok p2 =>
          obtain ⟨a2, r2⟩ := p2
          rw [hp2] at he
          simp only at he
          by_cases hms : stepMismatches (n + 1) a1 r1 a2 r2 = []
          · rw [if_pos hms] at he
            cases hsp : shouldPair l1 i1 with
            | false =>
              rw [hsp] at he
              exact ih (i1 + 1) (i2 + 1) (n + 1) (by omega) (by omega) (by omega)
                (by simpa using he)
            | true =>
              rw [hsp] at he
              have hlt := shouldPair_succ_lt l1 i1 hsp
              exact ih (i1 + 2) (i2 + 1) (n + 1) (by omega) (by omega) (by omega)
                (by simpa using he)
          · rw [if_neg hms] at he
            exact absurd he (by simp)
    · rw [dif_neg hc] at he
      simp only [Except.ok.injEq, Prod.mk.injEq, true_and] at he
      omega

/-- C2 amended, witness at a concrete input. -/
theorem c2_amended_witness :
    ((1 : Nat) = (["00000000"] : List String).length ∨
        (1 : Nat) = (["00000000"] : List String).length) ∧
      (1 : Nat) ≤ (["00000000"] : List String).length ∧
      (1 : Nat) ≤ (["00000000"] : List String).length :=
  c2_amended ["00000000"] ["00000000"] true [] 1 1 rfl rfl

/-- C3: the comparator pairs the current dialect-A line with the next
line exactly when the current line is format1, contains the `BLL`
marker and the in-bounds following line contains the `BLH` marker; at a
non-failing step the dialect-A cursor then advances by two (else by
one) while the dialect-B cursor always advances by one. -/
theorem c3_pairing_alignment (l1 l2 : List String) (i1 i2 n : Nat) (a1 a2 : String)
    (r1 r2 : Regs) (h : i1 < l1.length ∧ i2 < l2.length)
    (hp1 : parse_line (l1.get ⟨i1, h.1⟩) = .ok (a1, r1))
    (hp2 : parse_line (l2.get ⟨i2, h.2⟩) = .ok (a2, r2))
    (hms : stepMismatches (n + 1) a1 r1 a2 r2 = []) :
    (shouldPair l1 i1 = true ↔
      detect_format (l1.get ⟨i1, h.1⟩) = .format1 ∧
      containsSub "BLL".data (l1.get ⟨i1, h.1⟩).data = true ∧
      ∃ hlt : i1 + 1 < l1.length, containsSub "BLH".data (l1.get ⟨i1 + 1, hlt⟩).data = true) ∧
    compareFrom l1 l2 i1 i2 n =
      compareFrom l1 l2 (i1 + (if shouldPair l1 i1 then 2 else 1)) (i2 + 1) (n + 1) := by
  constructor
  · unfold shouldPair
    rw [List.get?_eq_get h.1]
    by_cases hlt : i1 + 1 < l1.length
    · rw [List.get?_eq_get hlt]
      simp [hlt, and_assoc]
    · rw [List.get?_eq_none.mpr (by omega)]
      simp [hlt]
  · exact compareFrom_step l1 l2 i1 i2 n a1 a2 r1 r2 h hp1 hp2 hms

/-- C3, witness at a concrete input: a BLL/BLH pair advances the
dialect-A cursor by two and the dialect-B cursor by one. -/
theorem c3_pairing_alignment_witness :
    shouldPair ["00000000 BLL", "00000001 BLH"] 0 = true ∧
      compareFrom ["00000000 BLL", "00000001 BLH"] ["00000000", "00000001"] 0 0 0 =
        compareFrom ["00000000 BLL", "00000001 BLH"] ["00000000", "00000001"] 2 1 1 := by
  have h := c3_pairing_alignment ["00000000 BLL", "00000001 BLH"] ["00000000", "00000001"]
    0 0 0 "0x00000000" "0x00000000" [] [] ⟨by decide, by decide⟩ rfl rfl rfl
  exact ⟨rfl, by simpa using h.2⟩

/-- C5: if the two sequences agree, along the comparator's own
alignment, on the canonical address and on every register index 0
through 12 present in both mappings at every step, then `compare`
returns the equivalent verdict — regardless of the values of registers
13 and 14, which the agreement predicate never consults. -/
theorem c5_sp_lr_ignored (l1 l2 : List String) (hagree : stepsAgree l1 l2 = true) :
    compare_traces l1 l2 = .ok true := by
  suffices haux : ∀ fuel i1 i2 n, agreesF l1 l2 fuel i1 i2 = true →
      ∃ j1 j2, compareAuxF l1 l2 fuel i1 i2 n = .ok (true, [], j1, j2) by
    obtain ⟨j1, j2, he⟩ := haux l1.length 0 0 0 hagree
    unfold compare_traces compare_tracesFull compareFrom
    rw [Nat.sub_zero, he]
    rfl
  intro fuel
  induction fuel with
  | zero => exact fun i1 i2 n _ => ⟨i1, i2, rfl⟩
  | succ f ih =>
    intro i1 i2 n hag
    simp only [agreesF] at hag
    by_cases hc : i1 < l1.length ∧ i2 < l2.length
    · rw [dif_pos hc] at hag
      cases hp1 : parse_line (l1.get ⟨i1, hc.1⟩) with
      | error e => rw [hp1] at hag; exact absurd hag (by simp)
      | ok p1 =>
        obtain ⟨a1, r1⟩ := p1
        rw [hp1] at hag
        cases hp2 : parse_line (l2.get ⟨i2, hc.2⟩) with
        | error e => rw [hp2] at hag; exact absurd hag (by simp)
        | ok p2 =>
          obtain ⟨a2, r2⟩ := p2
          rw [hp2] at hag
          simp only [Bool.and_eq_true, beq_iff_eq] at hag
          obtain ⟨⟨ha, hr⟩, hrec⟩ := hag
          have hms := stepMismatches_nil_of_agree (n + 1) a1 a2 r1 r2 ha hr
          obtain ⟨j1, j2, he⟩ := ih _ _ (n + 1) hrec
          refine ⟨j1, j2, ?_⟩
          simp only [compareAuxF]
          rw [dif_pos hc]
          simp only [hp1, hp2, hms, List.nil_eq, if_pos]
          simpa using he
    · rw [dif_neg hc] at hag
      exact ⟨i1, i2, by simp [compareAuxF, hc]⟩

/-- C5, witness at a concrete input: a difference confined to register
13 does not change the equivalent verdict. -/
theorem c5_sp_lr_ignored_witness :
    stepsAgree ["00000000 R0:aa R13:01"] ["00000000 R0:aa R13:02"] = true ∧
      compare_traces ["00000000 R0:aa R13:01"] ["00000000 R0:aa R13:02"] = .ok true :=
  ⟨rfl, c5_sp_lr_ignored _ _ rfl⟩

/-- C10: when the current dialect-A line is the last one, the pairing
check fails on the bounds test before any access to a following line,
so the line is treated as a standalone step and both cursors advance by
one. -/
theorem c10_trailing_bll_standalone (l1 l2 : List String) (i1 i2 n : Nat) (a1 a2 : String)
    (r1 r2 : Regs) (hi1 : i1 < l1.length) (hlast : i1 + 1 = l1.length)
    (hi2 : i2 < l2.length)
    (_hbll : containsSub "BLL".data (l1.get ⟨i1, hi1⟩).data = true)
    (hp1 : parse_line (l1.get ⟨i1, hi1⟩) = .ok (a1, r1))
    (hp2 : parse_line (l2.get ⟨i2, hi2⟩) = .ok (a2, r2))
    (hms : stepMismatches (n + 1) a1 r1 a2 r2 = []) :
    shouldPair l1 i1 = false ∧
      compareFrom l1 l2 i1 i2 n = compareFrom l1 l2 (i1 + 1) (i2 + 1) (n + 1) := by
  have hsp : shouldPair l1 i1 = false := by
    unfold shouldPair
    rw [List.get?_eq_get hi1, List.get?_eq_none.mpr (by omega)]
    simp
  refine ⟨hsp, ?_⟩
  have hstep := compareFrom_step l1 l2 i1 i2 n a1 a2 r1 r2 ⟨hi1, hi2⟩ hp1 hp2 hms
  rw [hsp] at hstep
  simpa using hstep

/-- C10, witness at a concrete input: a trailing `BLL` line with no
successor is a standalone step. -/
theorem c10_trailing_bll_standalone_witness :
    shouldPair ["00000000 BLL"] 0 = false ∧
      compareFrom ["00000000 BLL"] ["00000000"] 0 0 0 =
        compareFrom ["00000000 BLL"] ["00000000"] 1 1 1 :=
  c10_trailing_bll_standalone ["00000000 BLL"] ["00000000"] 0 0 0
    "0x00000000" "0x00000000" [] [] (by decide) rfl (by decide) rfl rfl rfl rfl

/-- C8 (amended): in a dialect-A line, each scanned register token with
numeric index at most 14 is recorded under the key `r` followed by the
token's digit string exactly as scanned (leading zeros preserved, so
the key coincides with `r<index>` only when the digit string has no
leading zeros); for each such key the value retained is that of the
left-to-right last token bearing the same digit string, and tokens with
index above 14 are not recorded. -/
theorem c8_amended (line : String) (a : String) (regs : Regs)
    (hdf : detect_format line = .format1)
    (hok : parse_line line = .ok (a, regs)) (k : String) :
    lookupRegs regs k = lastTokenValue (findRegTokens ':' line.data) k := by
  rw [parse_format1_regs line a regs hdf hok]
  exact lookupRegs_regsFrom _ k

/-- C8 amended, witness at a concrete input: the second `R1` token
overwrites the first, and the retained value is the last occurrence. -/
theorem c8_amended_witness :
    lookupRegs [("r1", 11)] "r1" =
      lastTokenValue (findRegTokens ':' "00000000 R1:0a R1:0b".data) "r1" :=
  c8_amended "00000000 R1:0a R1:0b" "0x00000000" [("r1", 11)] rfl rfl "r1"

/-- C9 (amended): every value in a parsed register mapping is the
hexadecimal decode of one of the line's scanned value tokens and is
bounded by 16 to the power of that token's length; values from
eight-digit tokens are below 2^32, but longer tokens exceed it. -/
theorem c9_amended (line : String) (a : String) (regs : Regs)
    (hok : parse_line line = .ok (a, regs)) :
    ∀ p ∈ regs, ∃ t ∈ valueTokens line, p.2 = hexVal t ∧ p.2 < 16 ^ t.length := by
  intro p hp
  cases hdf : detect_format line with
  | format1 =>
    rw [parse_format1_regs line a regs hdf hok] at hp
    rcases mem_regsFold _ _ _ hp with h1 | h1
    · exact absurd h1 (by simp)
    · obtain ⟨t, ht, hv⟩ := h1
      have hhex := findRegTokens_hex ':' line.data t ht
      refine ⟨t.2, ?_, hv, ?_⟩
      · simp only [valueTokens, hdf]
        exact List.mem_map_of_mem _ ht
      · rw [hv]
        exact hexVal_lt t.2 hhex
  | format2 =>
    have hval : valueTokens line =
        ((findRegTokens '=' line.data).map fun t => t.2) ++
          (match searchTag 's' 'S' 'p' 'P' line.data with
            | some hs => [hs]
            | none => []) ++
          (match searchTag 'l' 'L' 'r' 'R' line.data with
            | some hs => [hs]
            | none => []) := by
      simp only [valueTokens, hdf]
    have base : ∀ q : String × Nat, q ∈ regsFrom (findRegTokens '=' line.data) →
        ∃ t ∈ valueTokens line, q.2 = hexVal t ∧ q.2 < 16 ^ t.length := by
      intro q hq
      rcases mem_regsFold _ _ _ hq with h1 | h1
      · exact absurd h1 (by simp)
      · obtain ⟨t, ht, hv⟩ := h1
        have hhex := findRegTokens_hex '=' line.data t ht
        refine ⟨t.2, ?_, hv, ?_⟩
        · rw [hval]
          exact List.mem_append_left _ (List.mem_append_left _ (List.mem_map_of_mem _ ht))
        · rw [hv]
          exact hexVal_lt t.2 hhex
    have hregs := parse_format2_regs line a regs hdf hok
    cases hsp : searchTag 's' 'S' 'p' 'P' line.data with
    | none =>
      cases hlr : searchTag 'l' 'L' 'r' 'R' line.data with
      | none =>
        rw [hsp, hlr] at hregs
        rw [hregs] at hp
        exact base p hp
      | some hsl =>
        have hl := searchTag_sound _ _ _ _ _ _ hlr
        rw [hsp, hlr] at hregs
        rw [hregs] at hp
        rcases mem_dinsert _ _ _ _ hp with h1 | h1
        · refine ⟨hsl, ?_, h1, ?_⟩
          · rw [hval, hlr]
            simp
          · rw [h1]
            exact hexVal_lt hsl hl.2
        · exact base p h1
    | some hss =>
      have hs := searchTag_sound _ _ _ _ _ _ hsp
      cases hlr : searchTag 'l' 'L' 'r' 'R' line.data with
      | none =>
        rw [hsp, hlr] at hregs
        rw [hregs] at hp
        rcases mem_dinsert _ _ _ _ hp with h1 | h1
        · refine ⟨hss, ?_, h1, ?_⟩
          · rw [hval, hsp]
            simp
          · rw [h1]
            exact hexVal_lt hss hs.2
        · exact base p h1
      | some hsl =>
        have hl := searchTag_sound _ _ _ _ _ _ hlr
        rw [hsp, hlr] at hregs
        rw [hregs] at hp
        rcases mem_dinsert _ _ _ _ hp with h1 | h1
        · refine ⟨hsl, ?_, h1, ?_⟩
          · rw [hval, hlr]
            simp
          · rw [h1]
            exact hexVal_lt hsl hl.2
        · rcases mem_dinsert _ _ _ _ h1 with h2 | h2
          · refine ⟨hss, ?_, h2, ?_⟩
            · rw [hval, hsp]
              simp
            · rw [h2]
              exact hexVal_lt hss hs.2
          · exact base p h2

/-- C9 amended, witness at a concrete input: the parsed value 255 is
the decode of the eight-digit token `000000ff` and lies below
16^8 = 2^32. -/
theorem c9_amended_witness :
    ∃ t ∈ valueTokens "08000000 R0:000000ff",
      (255 : Nat) = hexVal t ∧ (255 : Nat) < 16 ^ t.length :=
  c9_amended "08000000 R0:000000ff" "0x08000000" [("r0", 255)] rfl ("r0", 255)
    (List.mem_singleton.mpr rfl)

/-- C7: for every register index `i ≤ 14` and hexadecimal token `v`, a
dialect-A line with the token `R<i>:<v>` and a dialect-B line with the
token `r<i>=<v>` (the letter case of the `R` irrelevant in both) record
the identical decoded unsigned integer for register `i`. -/
theorem c7_cross_dialect_decode (i : Nat) (hi : i ≤ 14) (rc rb : Char)
    (hrc : rc = 'R' ∨ rc = 'r') (hrb : rb = 'R' ∨ rb = 'r') (v : String)
    (hv : v.data ≠ []) (hvh : ∀ c ∈ v.data, isHexChar c = true) :
    ∃ regsA regsB,
      parse_line ("00000000 " ++ String.mk [rc] ++ toString i ++ ":" ++ v) =
        .ok ("0x00000000", regsA) ∧
      parse_line ("[debug x] 00000000: b [" ++ String.mk [rb] ++ toString i ++ "=" ++ v) =
        .ok ("0x00000000", regsB) ∧
      lookupRegs regsA (rkey i) = some (hexVal v.data) ∧
      lookupRegs regsB (rkey i) = some (hexVal v.data) := by
  have hds : (toString i).data ≠ [] ∧ (∀ c ∈ (toString i).data, c.isDigit = true) ∧
      decVal (toString i).data = i ∧ mkRegKey (toString i).data = rkey i := by
    interval_cases i <;> exact ⟨by decide, by decide, by decide, by decide⟩
  obtain ⟨hne, hdig, hdec, hkey⟩ := hds
  have hA : ("00000000 " ++ String.mk [rc] ++ toString i ++ ":" ++ v) =
      String.mk ("00000000 ".data ++ rc :: ((toString i).data ++ ':' :: v.data)) := by
    apply String.ext
    have hcolon : ":".data = [':'] := rfl
    simp [data_mk, hcolon, List.append_assoc]
  have hB : ("[debug x] 00000000: b [" ++ String.mk [rb] ++ toString i ++ "=" ++ v) =
      String.mk ("[debug x] 00000000: b [".data ++ rb :: ((toString i).data ++ '=' :: v.data)) := by
    apply String.ext
    have heq : "=".data = ['='] := rfl
    simp [data_mk, heq, List.append_assoc]
  refine ⟨[(mkRegKey (toString i).data, hexVal v.data)],
    [(mkRegKey (toString i).data, hexVal v.data)], ?_, ?_, ?_, ?_⟩
  · rw [hA]
    exact parseA_single rc hrc (toString i).data v.data hne hdig (by omega) hv hvh
  · rw [hB]
    exact parseB_single rb hrb (toString i).data v.data hne hdig (by omega) hv hvh
  · rw [hkey]
    simp [lookupRegs]
  · rw [hkey]
    simp [lookupRegs]

/-- C7, witness at the spec's example: `R3:0000002A` and `r3=0000002a`
both decode register 3 to 42. -/
theorem c7_cross_dialect_decode_witness :
    (∃ regsA regsB,
      parse_line ("00000000 " ++ String.mk ['R'] ++ toString 3 ++ ":" ++ "0000002A") =
        .ok ("0x00000000", regsA) ∧
      parse_line ("[debug x] 00000000: b [" ++ String.mk ['r'] ++ toString 3 ++ "=" ++ "0000002A") =
        .ok ("0x00000000", regsB) ∧
      lookupRegs regsA (rkey 3) = some (hexVal "0000002A".data) ∧
      lookupRegs regsB (rkey 3) = some (hexVal "0000002A".data)) ∧
      hexVal "0000002A".data = 42 ∧ hexVal "0000002a".data = 42 :=
  ⟨c7_cross_dialect_decode 3 (by omega) 'R' 'r' (.inl rfl) (.inr rfl)
      "0000002A" (by decide) (by decide),
    by decide, by decide⟩

end CompareTrace
